import Mathlib

/-!
Verification of the Prescription Intake Wizard of `grandson-pill-pal`
(`frontend/src/components/PrescriptionForm.tsx`).

The component is a client-side four-step wizard (`prescription` →
`extracting` → `validate` → `phone`).  Its state handlers are shallowly
embedded below: JavaScript strings become `String`, JavaScript numbers
become a `JSNum` that keeps `NaN` explicit, nullable fields become
`Option`, and the `Date.now()` calls that mint item ids become explicit
`now : Nat` arguments.  Item ids are built exactly as the source builds
them: the template literals `item-${index}-${Date.now()}` (extraction
seeding) and `item-${Date.now()}` (manual add).
-/

namespace Wizard

/-- Value of a decimal digit string (most significant digit first). -/
def digitsVal (cs : List Char) : Nat :=
  cs.foldl (fun a c => 10 * a + (c.toNat - 48)) 0

/-- Id assigned by `handlePrescriptionNext` to the seeded item at
position `index`: the string "item-" followed by the index, a dash, and
the observed `Date.now()` value. -/
def mkBatchId (index now : Nat) : String :=
  "item-" ++ Nat.repr index ++ "-" ++ Nat.repr now

def mkManualId (now : Nat) : String :=
  "item-" ++ Nat.repr now

inductive JSNum where
  | nan : JSNum
  | num (q : Rat) : JSNum
deriving DecidableEq, Repr

inductive JSVal where
  | vstr (s : String) : JSVal
  | vnum (n : JSNum) : JSVal
  | vnull : JSVal
deriving DecidableEq, Repr

def isJsWhitespace (c : Char) : Bool :=
  c = ' ' || c = '\t' || c = '\n' || c = '\r'

/-- Modelled from the ECMAScript runtime: `String.prototype.trim`. -/
def jsTrim (s : String) : String :=
  ⟨(((s.data.dropWhile isJsWhitespace).reverse.dropWhile isJsWhitespace).reverse)⟩

def digitsOfChars (cs : List Char) : Nat :=
  cs.foldl (fun a c => 10 * a + (c.toNat - 48)) 0

/-- Modelled from the ECMAScript runtime: `Number(string)` on optionally
signed decimal literals; `none` stands for `NaN`. -/
def jsNumberOfString (s : String) : Option Rat :=
  let t := jsTrim s
  if t = "" then some 0
  else
    let (sign, body) : Int × List Char :=
      match t.data with
      | '-' :: rest => (-1, rest)
      | '+' :: rest => (1, rest)
      | cs => (1, cs)
    let intDigits := body.takeWhile Char.isDigit
    let rest := body.dropWhile Char.isDigit
    match rest with
    | [] =>
      if intDigits.isEmpty then none
      else some (sign * (digitsOfChars intDigits : Int) : Int)
    | '.' :: frac =>
      if frac.all Char.isDigit && !(intDigits.isEmpty && frac.isEmpty) then
        some ((sign : Rat) *
          ((digitsOfChars intDigits : Rat) +
            (digitsOfChars frac : Rat) / (10 : Rat) ^ frac.length))
      else none
    | _ => none

/-- Modelled from the ECMAScript runtime: the `Number(value)` conversion
applied by the component to `string | number | null` values. -/
def toNumber : JSVal → JSNum
  | .vstr s =>
    match jsNumberOfString s with
    | some q => .num q
    | none => .nan
  | .vnum n => n
  | .vnull => .num 0

/-- Candidate item returned by the extraction service (`ExtractedItem` in
`frontend/src/api`).  The TypeScript union enums (`item_type`,
`confidence_level`) are runtime strings and are embedded as `String`;
nullable dosing numbers become `Option JSNum`. -/
structure ExtractedItem where
  item_type : String
  item_name : String
  item_name_complete : String
  pills_per_dose : Option JSNum
  doses_per_day : Option JSNum
  treatment_duration_days : Option JSNum
  total_pills_required : Option JSNum
  raw_prescription_text : String
  confidence_level : String
  requires_human_review : Bool
deriving DecidableEq, Repr

/-- Wizard Item: `interface ValidatedItem extends ExtractedItem` with the
wizard's `id` and `validated` fields. -/
structure ValidatedItem where
  id : String
  item_type : String
  item_name : String
  item_name_complete : String
  pills_per_dose : Option JSNum
  doses_per_day : Option JSNum
  treatment_duration_days : Option JSNum
  total_pills_required : Option JSNum
  raw_prescription_text : String
  confidence_level : String
  requires_human_review : Bool
  validated : Bool
deriving DecidableEq, Repr

/-- Candidate-item part of a Wizard Item (drops `id` and `validated`). -/
def toCandidate (it : ValidatedItem) : ExtractedItem :=
  { item_type := it.item_type
    item_name := it.item_name
    item_name_complete := it.item_name_complete
    pills_per_dose := it.pills_per_dose
    doses_per_day := it.doses_per_day
    treatment_duration_days := it.treatment_duration_days
    total_pills_required := it.total_pills_required
    raw_prescription_text := it.raw_prescription_text
    confidence_level := it.confidence_level
    requires_human_review := it.requires_human_review }

structure ExtractionResponse where
  items : List ExtractedItem
deriving DecidableEq, Repr

/-- Outcome of the awaited `extractPrescription` call: a response, or a
thrown error (network failure / non-2xx / malformed body). -/
inductive ExtractionResult where
  | ok (r : ExtractionResponse) : ExtractionResult
  | error : ExtractionResult
deriving DecidableEq, Repr

/-- Submission payload entry (`PrescriptionItemInput` in
`frontend/src/api/types.ts`, the fields `handleSubmit` fills). -/
structure PrescriptionItemInput where
  text : String
  item_type : String
  item_name : String
  item_name_complete : String
  pills_per_dose : Option JSNum
  doses_per_day : Option JSNum
  treatment_duration_days : Option JSNum
  total_pills_required : Option JSNum
  raw_prescription_text : String
  confidence_level : String
  requires_human_review : Bool
deriving DecidableEq, Repr

structure PrescriptionSubmitData where
  items : List PrescriptionItemInput
  phone : String
deriving DecidableEq, Repr

inductive Step where
  | prescription : Step
  | extracting : Step
  | validate : Step
  | phone : Step
deriving DecidableEq, Repr

/-- The `newItemForm` component state (`initialNewItemState` shape): the
four dosing fields are `string | number` valued in the source. -/
structure NewItemForm where
  item_type : String
  item_name_complete : String
  pills_per_dose : JSVal
  doses_per_day : JSVal
  treatment_duration_days : JSVal
  total_pills_required : JSVal
deriving DecidableEq, Repr

def initialNewItemState : NewItemForm :=
  { item_type := "medication"
    item_name_complete := ""
    pills_per_dose := .vstr ""
    doses_per_day := .vstr ""
    treatment_duration_days := .vstr ""
    total_pills_required := .vstr "" }

/-- The wizard's `useState` cells.  Presentation-only state
(`selectedCountry`, `debugExpanded`) is omitted; the country dial code is
passed to `handleSubmit` explicitly. -/
structure WizardState where
  step : Step
  prescription : String
  items : List ValidatedItem
  phone : String
  newItemForm : NewItemForm
  showNewItemForm : Bool
  extractionError : Option String
  debugResponse : Option ExtractionResponse
deriving DecidableEq, Repr

def initialWizardState : WizardState :=
  { step := .prescription
    prescription := ""
    items := []
    phone := ""
    newItemForm := initialNewItemState
    showNewItemForm := false
    extractionError := none
    debugResponse := none }

/-- One seeded item of `handlePrescriptionNext`'s
`result.items.map((item, index) => ({...item, id: ..., validated: false}))`. -/
def mkSeed (item : ExtractedItem) (index now : Nat) : ValidatedItem :=
  { id := mkBatchId index now
    item_type := item.item_type
    item_name := item.item_name
    item_name_complete := item.item_name_complete
    pills_per_dose := item.pills_per_dose
    doses_per_day := item.doses_per_day
    treatment_duration_days := item.treatment_duration_days
    total_pills_required := item.total_pills_required
    raw_prescription_text := item.raw_prescription_text
    confidence_level := item.confidence_level
    requires_human_review := item.requires_human_review
    validated := false }

/-- Index-carrying recursion implementing the indexed `map` of the
seeding step. -/
def seedItemsAux (now : Nat) : Nat → List ExtractedItem → List ValidatedItem
  | _, [] => []
  | i, item :: rest => mkSeed item i now :: seedItemsAux now (i + 1) rest

def seedItems (l : List ExtractedItem) (now : Nat) : List ValidatedItem :=
  seedItemsAux now 0 l

/-- Handler `handlePrescriptionNext`: guard on trimmed-empty text, then on
success seed items and go to `validate`; on a thrown error set the
localized message `t("errorExtraction")` (passed in as `errMsg`) and go
back to `prescription`.  The final state after the async call resolves is
modelled; `now` is the `Date.now()` value observed while seeding. -/
def handlePrescriptionNext (s : WizardState) (result : ExtractionResult)
    (errMsg : String) (now : Nat) : WizardState :=
  if jsTrim s.prescription = "" then s
  else
    match result with
    | .ok r =>
      { s with extractionError := none
               debugResponse := some r
               items := seedItems r.items now
               step := .validate }
    | .error =>
      { s with extractionError := some errMsg
               debugResponse := none
               step := .prescription }

/-- Handler `toggleItem`. -/
def toggleItem (items : List ValidatedItem) (id : String) : List ValidatedItem :=
  items.map fun item =>
    if item.id = id then { item with validated := !item.validated } else item

/-- The editable fields reachable through `updateItemField` in the UI. -/
inductive FieldK where
  | item_type : FieldK
  | item_name_complete : FieldK
  | pills_per_dose : FieldK
  | doses_per_day : FieldK
  | treatment_duration_days : FieldK
  | total_pills_required : FieldK
deriving DecidableEq, Repr

def FieldK.isNumeric : FieldK → Bool
  | .pills_per_dose | .doses_per_day
  | .treatment_duration_days | .total_pills_required => true
  | _ => false

/-- Stored value of the numeric branch of `updateItemField`:
`value === "" || value === null ? null : Number(value)`. -/
def numStore (value : JSVal) : Option JSNum :=
  if value = .vstr "" ∨ value = .vnull then none else some (toNumber value)

/-- String stored into a string-typed field.  The component only ever
passes string values for the string fields (`item_type`,
`item_name_complete`), so the embedding restricts those updates to the
string payload. -/
def strStore (value : JSVal) : String :=
  match value with
  | .vstr s => s
  | _ => ""

def setField (item : ValidatedItem) (field : FieldK) (value : JSVal) : ValidatedItem :=
  match field with
  | .pills_per_dose => { item with pills_per_dose := numStore value }
  | .doses_per_day => { item with doses_per_day := numStore value }
  | .treatment_duration_days => { item with treatment_duration_days := numStore value }
  | .total_pills_required => { item with total_pills_required := numStore value }
  | .item_type => { item with item_type := strStore value }
  | .item_name_complete => { item with item_name_complete := strStore value }

/-- Handler `updateItemField`: non-matching items are returned unchanged;
matching items get the field set (with the numeric-field null/Number
handling inside `setField`). -/
def updateItemField (items : List ValidatedItem) (id : String) (field : FieldK)
    (value : JSVal) : List ValidatedItem :=
  items.map fun item =>
    if item.id ≠ id then item else setField item field value

/-- Handler `removeItem`: `items.filter(item => item.id !== id)`. -/
def removeItem (items : List ValidatedItem) (id : String) : List ValidatedItem :=
  items.filter fun item => item.id != id

/-- Read access to the four numeric dosing fields. -/
def getNum (item : ValidatedItem) : FieldK → Option JSNum
  | .pills_per_dose => item.pills_per_dose
  | .doses_per_day => item.doses_per_day
  | .treatment_duration_days => item.treatment_duration_days
  | .total_pills_required => item.total_pills_required
  | _ => none

/-- JavaScript `s.split(" ")[0]`: the prefix before the first space. -/
def firstWord (s : String) : String :=
  ⟨s.data.takeWhile (fun c => c ≠ ' ')⟩

/-- Form-field conversion in `addItem`: `v === "" ? null : Number(v)`. -/
def formNumStore (v : JSVal) : Option JSNum :=
  if v = .vstr "" then none else some (toNumber v)

/-- The manual item `addItem` constructs from the new-item form. -/
def manualItemOf (form : NewItemForm) (now : Nat) : ValidatedItem :=
  { id := mkManualId now
    item_type := form.item_type
    item_name := firstWord (jsTrim form.item_name_complete)
    item_name_complete := jsTrim form.item_name_complete
    pills_per_dose := formNumStore form.pills_per_dose
    doses_per_day := formNumStore form.doses_per_day
    treatment_duration_days := formNumStore form.treatment_duration_days
    total_pills_required := formNumStore form.total_pills_required
    raw_prescription_text := "[Manual] " ++ jsTrim form.item_name_complete
    confidence_level := "high"
    requires_human_review := false
    validated := true }

/-- Handler `addItem`: guarded on non-empty trimmed description; appends
the manual item, resets the form and hides it. -/
def addItem (s : WizardState) (now : Nat) : WizardState :=
  if jsTrim s.newItemForm.item_name_complete = "" then s
  else
    { s with items := s.items ++ [manualItemOf s.newItemForm now]
             newItemForm := initialNewItemState
             showNewItemForm := false }

/-- The form-field update cases of `updateNewItemField`. -/
inductive NewFieldK where
  | item_type : NewFieldK
  | item_name_complete : NewFieldK
  | pills_per_dose : NewFieldK
  | doses_per_day : NewFieldK
  | treatment_duration_days : NewFieldK
  | total_pills_required : NewFieldK
deriving DecidableEq, Repr

/-- Handler `updateNewItemField`: stores the raw value into the form. -/
def updateNewItemField (form : NewItemForm) (f : NewFieldK) (v : JSVal) : NewItemForm :=
  match f with
  | .item_type => { form with item_type := strStore v }
  | .item_name_complete => { form with item_name_complete := strStore v }
  | .pills_per_dose => { form with pills_per_dose := v }
  | .doses_per_day => { form with doses_per_day := v }
  | .treatment_duration_days => { form with treatment_duration_days := v }
  | .total_pills_required => { form with total_pills_required := v }

/-- The `allValidated` gate:
`items.length > 0 && items.every(item => item.validated)`. -/
def allValidated (items : List ValidatedItem) : Bool :=
  decide (items.length > 0) && items.all (·.validated)

/-- Handler `handleValidateNext`: `if (allValidated) setStep("phone")`. -/
def handleValidateNext (s : WizardState) : WizardState :=
  if allValidated s.items then { s with step := .phone } else s

/-- Payload entry built by `handleSubmit`; the displayed `text` is
`item.item_name_complete || item.raw_prescription_text` (JavaScript `||`
falls through exactly on the empty string here). -/
def buildPayloadItem (item : ValidatedItem) : PrescriptionItemInput :=
  { text := if item.item_name_complete = "" then item.raw_prescription_text
            else item.item_name_complete
    item_type := item.item_type
    item_name := item.item_name
    item_name_complete := item.item_name_complete
    pills_per_dose := item.pills_per_dose
    doses_per_day := item.doses_per_day
    treatment_duration_days := item.treatment_duration_days
    total_pills_required := item.total_pills_required
    raw_prescription_text := item.raw_prescription_text
    confidence_level := item.confidence_level
    requires_human_review := item.requires_human_review }

def buildPayloadItems (items : List ValidatedItem) : List PrescriptionItemInput :=
  items.map buildPayloadItem

/-- The `fullPhoneNumber` derived value:
`phone ? dialCode + " " + phone : ""`. -/
def fullPhoneNumber (dialCode phone : String) : String :=
  if phone = "" then "" else dialCode ++ " " ++ phone

/-- Handler `handleSubmit`: gated on non-blank phone and no submission in
flight; returns the payload handed to `onSubmit`, or `none` when gated. -/
def handleSubmit (s : WizardState) (dialCode : String) (isLoading : Bool) :
    Option PrescriptionSubmitData :=
  if jsTrim s.phone ≠ "" ∧ isLoading = false then
    some { items := buildPayloadItems s.items
           phone := fullPhoneNumber dialCode s.phone }
  else none

inductive WizardOp where
  | setPrescriptionText (text : String) : WizardOp
  | runExtraction (result : ExtractionResult) (errMsg : String) (now : Nat) : WizardOp
  | toggle (id : String) : WizardOp
  | updateField (id : String) (field : FieldK) (value : JSVal) : WizardOp
  | remove (id : String) : WizardOp
  | openNewItemForm : WizardOp
  | cancelNewItemForm : WizardOp
  | editNewItem (f : NewFieldK) (v : JSVal) : WizardOp
  | addNew (now : Nat) : WizardOp
  | validateNext : WizardOp
  | backToPrescription : WizardOp
  | editItemsFromPhone : WizardOp
  | setPhoneText (text : String) : WizardOp
deriving DecidableEq, Repr

def applyOp (s : WizardState) : WizardOp → WizardState
  | .setPrescriptionText t => { s with prescription := t }
  | .runExtraction res err now => handlePrescriptionNext s res err now
  | .toggle id => { s with items := toggleItem s.items id }
  | .updateField id f v => { s with items := updateItemField s.items id f v }
  | .remove id => { s with items := removeItem s.items id }
  | .openNewItemForm => { s with showNewItemForm := true }
  | .cancelNewItemForm => { s with showNewItemForm := false, newItemForm := initialNewItemState }
  | .editNewItem f v => { s with newItemForm := updateNewItemField s.newItemForm f v }
  | .addNew now => addItem s now
  | .validateNext => handleValidateNext s
  | .backToPrescription => { s with step := .prescription }
  | .editItemsFromPhone => { s with step := .validate }
  | .setPhoneText t => { s with phone := t }

/-- The `Date.now()` value an operation observes, if it observes one. -/
def opStamp : WizardOp → Option Nat
  | .runExtraction _ _ now => some now
  | .addNew now => some now
  | _ => none

def itemIds (s : WizardState) : List String :=
  s.items.map (·.id)

def seedIds (l : List ExtractedItem) (now : Nat) : List String :=
  (seedItems l now).map (·.id)

/-- Ids freshly minted by one operation in state `s` (same guards as the
corresponding handlers). -/
def opNewIds (s : WizardState) : WizardOp → List String
  | .runExtraction res _ now =>
    if jsTrim s.prescription = "" then []
    else
      match res with
      | .ok r => seedIds r.items now
      | .error => []
  | .addNew now =>
    if jsTrim s.newItemForm.item_name_complete = "" then [] else [mkManualId now]
  | _ => []

/-- Run a sequence of operations, returning the final state together with
every id minted along the way, in creation order. -/
def runAlloc (s : WizardState) : List WizardOp → WizardState × List String
  | [] => (s, [])
  | op :: ops =>
    let r := runAlloc (applyOp s op) ops
    (r.1, opNewIds s op ++ r.2)

/-- Clock discipline: every `Date.now()` observation along the run is at
least the bound and strictly smaller than the next observation. -/
def ClockOk : Nat → List WizardOp → Bool
  | _, [] => true
  | b, op :: ops =>
    match opStamp op with
    | none => ClockOk b ops
    | some t => decide (b ≤ t) && ClockOk (t + 1) ops

/-- Upper bound (exclusive) on all timestamps observed along a run. -/
def finalClock (b : Nat) : List WizardOp → Nat
  | [] => b
  | op :: ops =>
    match opStamp op with
    | none => finalClock b ops
    | some t => finalClock (t + 1) ops

/-- The id was minted from a timestamp in `[lo, hi)`, in one of the two
shapes the source produces. -/
def StampIn (lo hi : Nat) (id : String) : Prop :=
  (∃ i t, lo ≤ t ∧ t < hi ∧ id = mkBatchId i t) ∨
    (∃ t, lo ≤ t ∧ t < hi ∧ id = mkManualId t)

def GoodId (b : Nat) (id : String) : Prop :=
  StampIn 0 b id

def sampleItem (idv nc raw : String) (val : Bool) : ValidatedItem :=
  { id := idv
    item_type := "medication"
    item_name := "X"
    item_name_complete := nc
    pills_per_dose := none
    doses_per_day := none
    treatment_duration_days := none
    total_pills_required := none
    raw_prescription_text := raw
    confidence_level := "high"
    requires_human_review := false
    validated := val }

def sampleCandidate (nm : String) : ExtractedItem :=
  { item_type := "medication"
    item_name := nm
    item_name_complete := nm
    pills_per_dose := none
    doses_per_day := none
    treatment_duration_days := none
    total_pills_required := none
    raw_prescription_text := nm
    confidence_level := "high"
    requires_human_review := false }

def sampleTypedState : WizardState :=
  { initialWizardState with prescription := "Take 1 blue pill" }

def sampleFormState : WizardState :=
  { initialWizardState with
      newItemForm := { initialNewItemState with item_name_complete := "Aspirin 100mg" } }

/-- Two manual adds whose `Date.now()` observations strictly increase. -/
def clockedOps : List WizardOp :=
  [.editNewItem .item_name_complete (.vstr "Aspirin"), .addNew 1,
   .editNewItem .item_name_complete (.vstr "Ibuprofen"), .addNew 2]

/-- Two manual adds that observe the same `Date.now()` millisecond. -/
def collidingOps : List WizardOp :=
  [.editNewItem .item_name_complete (.vstr "Aspirin"), .addNew 7,
   .editNewItem .item_name_complete (.vstr "Ibuprofen"), .addNew 7]

/-- Concrete `validate`-step state with one unvalidated item. -/
def sampleValidateState : WizardState :=
  { initialWizardState with
      step := Step.validate
      items := [sampleItem "item-0-1" "A" "r" false] }

theorem digitChar_isDigit {m : Nat} (h : m < 10) :
    (Nat.digitChar m).isDigit = true := by
  interval_cases m <;> decide

theorem digitChar_val {m : Nat} (h : m < 10) :
    (Nat.digitChar m).toNat - 48 = m := by
  interval_cases m <;> decide

theorem toDigitsCore_append (fuel : Nat) :
    ∀ (n : Nat) (ds : List Char),
      Nat.toDigitsCore 10 fuel n ds = Nat.toDigitsCore 10 fuel n [] ++ ds := by
  induction fuel with
  | zero => intro n ds; simp [Nat.toDigitsCore]
  | succ fuel ih =>
    intro n ds
    simp only [Nat.toDigitsCore]
    by_cases h : n / 10 = 0
    · simp [h]
    · simp only [if_neg h]
      rw [ih (n / 10) [Nat.digitChar (n % 10)],
          ih (n / 10) (Nat.digitChar (n % 10) :: ds), List.append_assoc]
      rfl

theorem toDigitsCore_all_digits (fuel : Nat) :
    ∀ (n : Nat) (ds : List Char), (∀ c ∈ ds, c.isDigit = true) →
      ∀ c ∈ Nat.toDigitsCore 10 fuel n ds, c.isDigit = true := by
  induction fuel with
  | zero => intro n ds hds; simpa [Nat.toDigitsCore] using hds
  | succ fuel ih =>
    intro n ds hds c hc
    simp only [Nat.toDigitsCore] at hc
    have hd : (Nat.digitChar (n % 10)).isDigit = true :=
      digitChar_isDigit (Nat.mod_lt _ (by decide))
    by_cases h : n / 10 = 0
    · simp only [if_pos h, List.mem_cons] at hc
      rcases hc with rfl | hc
      · exact hd
      · exact hds c hc
    · simp only [if_neg h] at hc
      refine ih (n / 10) (Nat.digitChar (n % 10) :: ds) ?_ c hc
      intro c' hc'
      rcases List.mem_cons.mp hc' with rfl | hc'
      · exact hd
      · exact hds c' hc'

theorem digitsVal_append_singleton (cs : List Char) (d : Char) :
    digitsVal (cs ++ [d]) = 10 * digitsVal cs + (d.toNat - 48) := by
  simp [digitsVal, List.foldl_append]

theorem digitsVal_toDigitsCore (fuel : Nat) :
    ∀ n : Nat, n < fuel → digitsVal (Nat.toDigitsCore 10 fuel n []) = n := by
  induction fuel with
  | zero => intro n hn; omega
  | succ fuel ih =>
    intro n hn
    simp only [Nat.toDigitsCore]
    have hmod : n % 10 < 10 := Nat.mod_lt _ (by decide)
    by_cases h : n / 10 = 0
    · have hlt : n < 10 := by omega
      simp only [if_pos h]
      have : digitsVal [Nat.digitChar (n % 10)] = n % 10 := by
        simp [digitsVal, digitChar_val hmod]
      rw [this, Nat.mod_eq_of_lt hlt]
    · simp only [if_neg h]
      have hnpos : 0 < n := by
        by_contra hc
        have : n = 0 := by omega
        subst this
        simp at h
      have hdivlt : n / 10 < n := Nat.div_lt_self hnpos (by decide)
      have hfuel : n / 10 < fuel := by omega
      rw [toDigitsCore_append fuel (n / 10) [Nat.digitChar (n % 10)],
          digitsVal_append_singleton, ih (n / 10) hfuel, digitChar_val hmod]
      omega

theorem digitsVal_toDigits (n : Nat) :
    digitsVal (Nat.toDigits 10 n) = n :=
  digitsVal_toDigitsCore (n + 1) n (Nat.lt_succ_self n)

theorem toDigits_inj {n m : Nat} (h : Nat.toDigits 10 n = Nat.toDigits 10 m) :
    n = m := by
  have := digitsVal_toDigits n
  rw [h, digitsVal_toDigits] at this
  omega

theorem repr_data (n : Nat) : (Nat.repr n).data = Nat.toDigits 10 n := rfl

theorem repr_inj {n m : Nat} (h : Nat.repr n = Nat.repr m) : n = m := by
  apply toDigits_inj
  rw [← repr_data, ← repr_data, h]

theorem repr_all_digits (n : Nat) :
    ∀ c ∈ (Nat.repr n).data, c.isDigit = true := by
  rw [repr_data]
  exact toDigitsCore_all_digits (n + 1) n [] (by intro c hc; cases hc)

theorem isDigit_ne_dash {c : Char} (h : c.isDigit = true) : c ≠ '-' := by
  intro hc
  subst hc
  simp [Char.isDigit] at h

/-- Splitting around the first dash is unambiguous when the parts before
the dash consist of digits only. -/
theorem digit_list_dash_split :
    ∀ (a b x y : List Char), (∀ c ∈ a, c.isDigit = true) →
      (∀ c ∈ b, c.isDigit = true) →
      a ++ '-' :: x = b ++ '-' :: y → a = b ∧ x = y := by
  intro a
  induction a with
  | nil =>
    intro b x y _ hb h
    cases b with
    | nil => simpa using h
    | cons c b' =>
      simp only [List.nil_append, List.cons_append, List.cons.injEq] at h
      exact absurd h.1.symm (isDigit_ne_dash (hb c (by simp)))
  | cons c a' ih =>
    intro b x y ha hb h
    cases b with
    | nil =>
      simp only [List.cons_append, List.nil_append, List.cons.injEq] at h
      exact absurd h.1 (isDigit_ne_dash (ha c (by simp)))
    | cons c' b' =>
      simp only [List.cons_append, List.cons.injEq] at h
      obtain ⟨rfl, h'⟩ := h
      obtain ⟨h1, h2⟩ := ih b' x y (fun d hd => ha d (by simp [hd]))
        (fun d hd => hb d (by simp [hd])) h'
      exact ⟨by rw [h1], h2⟩

theorem mkBatchId_data (index now : Nat) :
    (mkBatchId index now).data =
      "item-".data ++ ((Nat.repr index).data ++ '-' :: (Nat.repr now).data) := by
  simp [mkBatchId, String.data_append]

theorem mkManualId_data (now : Nat) :
    (mkManualId now).data = "item-".data ++ (Nat.repr now).data := by
  simp [mkManualId, String.data_append]

theorem mkBatchId_inj {i t j u : Nat} (h : mkBatchId i t = mkBatchId j u) :
    i = j ∧ t = u := by
  have hd := congrArg String.data h
  rw [mkBatchId_data, mkBatchId_data] at hd
  have hd' := List.append_cancel_left hd
  obtain ⟨h1, h2⟩ := digit_list_dash_split (Nat.repr i).data (Nat.repr j).data
    (Nat.repr t).data (Nat.repr u).data (repr_all_digits i) (repr_all_digits j) hd'
  exact ⟨repr_inj (String.ext h1), repr_inj (String.ext h2)⟩

theorem mkManualId_inj {t u : Nat} (h : mkManualId t = mkManualId u) : t = u := by
  have hd := congrArg String.data h
  rw [mkManualId_data, mkManualId_data] at hd
  exact repr_inj (String.ext (List.append_cancel_left hd))

theorem mkBatchId_ne_mkManualId (i t u : Nat) : mkBatchId i t ≠ mkManualId u := by
  intro h
  have hd := congrArg String.data h
  rw [mkBatchId_data, mkManualId_data] at hd
  have hd' := List.append_cancel_left hd
  have hmem : '-' ∈ (Nat.repr u).data := by
    rw [← hd']
    exact List.mem_append_right _ (by simp)
  exact isDigit_ne_dash (repr_all_digits u '-' hmem) rfl

theorem stampIn_mono {lo hi lo' hi' : Nat} (hlo : lo' ≤ lo) (hhi : hi ≤ hi')
    {id : String} (h : StampIn lo hi id) : StampIn lo' hi' id := by
  rcases h with ⟨i, t, h1, h2, h3⟩ | ⟨t, h1, h2, h3⟩
  · exact Or.inl ⟨i, t, le_trans hlo h1, lt_of_lt_of_le h2 hhi, h3⟩
  · exact Or.inr ⟨t, le_trans hlo h1, lt_of_lt_of_le h2 hhi, h3⟩

theorem stampIn_disjoint {lo1 hi1 lo2 hi2 : Nat} (hle : hi1 ≤ lo2) {id : String}
    (h1 : StampIn lo1 hi1 id) (h2 : StampIn lo2 hi2 id) : False := by
  rcases h1 with ⟨i, t, _, ht, rfl⟩ | ⟨t, _, ht, rfl⟩
  · rcases h2 with ⟨j, u, hu, _, he⟩ | ⟨u, hu, _, he⟩
    · obtain ⟨_, rfl⟩ := mkBatchId_inj he
      omega
    · exact mkBatchId_ne_mkManualId i t u he
  · rcases h2 with ⟨j, u, hu, _, he⟩ | ⟨u, hu, _, he⟩
    · exact mkBatchId_ne_mkManualId j u t he.symm
    · obtain rfl := mkManualId_inj he
      omega

theorem seedItemsAux_length (now : Nat) :
    ∀ (i : Nat) (l : List ExtractedItem), (seedItemsAux now i l).length = l.length := by
  intro i l
  induction l generalizing i with
  | nil => rfl
  | cons item rest ih => simp [seedItemsAux, ih]

theorem toCandidate_mkSeed (item : ExtractedItem) (i now : Nat) :
    toCandidate (mkSeed item i now) = item := rfl

theorem seedItemsAux_toCandidate (now : Nat) :
    ∀ (i : Nat) (l : List ExtractedItem),
      (seedItemsAux now i l).map toCandidate = l := by
  intro i l
  induction l generalizing i with
  | nil => rfl
  | cons item rest ih => simp [seedItemsAux, toCandidate_mkSeed, ih]

theorem seedItemsAux_validated (now : Nat) :
    ∀ (i : Nat) (l : List ExtractedItem) (it : ValidatedItem),
      it ∈ seedItemsAux now i l → it.validated = false := by
  intro i l
  induction l generalizing i with
  | nil => intro it h; cases h
  | cons item rest ih =>
    intro it h
    rcases List.mem_cons.mp h with rfl | h
    · rfl
    · exact ih (i + 1) it h

theorem seedItemsAux_ids (now : Nat) :
    ∀ (i : Nat) (l : List ExtractedItem) (id : String),
      id ∈ (seedItemsAux now i l).map (·.id) → ∃ j, i ≤ j ∧ id = mkBatchId j now := by
  intro i l
  induction l generalizing i with
  | nil => intro id h; cases h
  | cons item rest ih =>
    intro id h
    rcases List.mem_cons.mp h with rfl | h
    · exact ⟨i, le_refl i, rfl⟩
    · obtain ⟨j, hj, rfl⟩ := ih (i + 1) id h
      exact ⟨j, by omega, rfl⟩

theorem seedItemsAux_ids_nodup (now : Nat) :
    ∀ (i : Nat) (l : List ExtractedItem),
      ((seedItemsAux now i l).map (·.id)).Nodup := by
  intro i l
  induction l generalizing i with
  | nil => simp [seedItemsAux]
  | cons item rest ih =>
    simp only [seedItemsAux, List.map_cons, List.nodup_cons]
    refine ⟨?_, ih (i + 1)⟩
    intro hmem
    obtain ⟨j, hj, hid⟩ := seedItemsAux_ids now (i + 1) rest _ hmem
    obtain ⟨hji, -⟩ := mkBatchId_inj hid
    omega

theorem seedIds_stamp {l : List ExtractedItem} {now : Nat} {id : String}
    (h : id ∈ seedIds l now) : StampIn now (now + 1) id := by
  obtain ⟨j, -, rfl⟩ := seedItemsAux_ids now 0 l id h
  exact Or.inl ⟨j, now, le_refl now, Nat.lt_succ_self now, rfl⟩

theorem seedIds_nodup (l : List ExtractedItem) (now : Nat) :
    (seedIds l now).Nodup :=
  seedItemsAux_ids_nodup now 0 l

theorem setField_id (item : ValidatedItem) (f : FieldK) (v : JSVal) :
    (setField item f v).id = item.id := by
  cases f <;> rfl

theorem toggleItem_ids (items : List ValidatedItem) (id : String) :
    (toggleItem items id).map (·.id) = items.map (·.id) := by
  simp only [toggleItem, List.map_map]
  refine List.map_congr_left ?_
  intro it _
  by_cases h : it.id = id <;> simp [h]

theorem updateItemField_ids (items : List ValidatedItem) (id : String)
    (f : FieldK) (v : JSVal) :
    (updateItemField items id f v).map (·.id) = items.map (·.id) := by
  simp only [updateItemField, List.map_map]
  refine List.map_congr_left ?_
  intro it _
  by_cases h : it.id = id <;> simp [h, setField_id]

theorem removeItem_ids_sublist (items : List ValidatedItem) (id : String) :
    List.Sublist ((removeItem items id).map (·.id)) (items.map (·.id)) :=
  (List.filter_sublist items).map (·.id)

theorem opStamp_none_newIds {op : WizardOp} (h : opStamp op = none)
    (s : WizardState) : opNewIds s op = [] := by
  cases op <;> simp_all [opStamp, opNewIds]

theorem opStamp_none_ids {op : WizardOp} (h : opStamp op = none)
    (s : WizardState) : List.Sublist (itemIds (applyOp s op)) (itemIds s) := by
  cases op with
  | toggle id =>
    simp only [applyOp, itemIds]
    rw [toggleItem_ids s.items id]
  | updateField id f v =>
    simp only [applyOp, itemIds]
    rw [updateItemField_ids s.items id f v]
  | remove id => exact removeItem_ids_sublist s.items id
  | runExtraction res err now => simp [opStamp] at h
  | addNew now => simp [opStamp] at h
  | validateNext =>
    simp only [applyOp, handleValidateNext]
    by_cases hv : allValidated s.items = true <;> simp [hv, itemIds]
  | _ => exact List.Sublist.refl _

theorem finalClock_ge (ops : List WizardOp) :
    ∀ b : Nat, ClockOk b ops = true → b ≤ finalClock b ops := by
  induction ops with
  | nil => intro b _; exact le_refl b
  | cons op rest ih =>
    intro b hck
    cases hst : opStamp op with
    | none =>
      simp only [ClockOk, hst] at hck
      simpa only [finalClock, hst] using ih b hck
    | some t =>
      simp only [ClockOk, hst, Bool.and_eq_true, decide_eq_true_eq] at hck
      have := ih (t + 1) hck.2
      simp only [finalClock, hst]
      omega

theorem runAlloc_spec (ops : List WizardOp) :
    ∀ (b : Nat) (s : WizardState),
      ClockOk b ops = true →
      (∀ id ∈ itemIds s, GoodId b id) →
      (itemIds s).Nodup →
      ((runAlloc s ops).2.Nodup ∧
        (∀ id ∈ (runAlloc s ops).2, StampIn b (finalClock b ops) id) ∧
        List.Sublist (itemIds (runAlloc s ops).1) (itemIds s ++ (runAlloc s ops).2) ∧
        (itemIds (runAlloc s ops).1).Nodup) := by
  induction ops with
  | nil =>
    intro b s _ _ hnd
    refine ⟨List.nodup_nil, ?_, ?_, hnd⟩
    · intro id h; cases h
    · simp only [runAlloc, List.append_nil]
      exact List.Sublist.refl (itemIds s)
  | cons op rest ih =>
    intro b s hck hgood hnd
    simp only [runAlloc]
    cases hst : opStamp op with
    | none =>
      simp only [ClockOk, hst] at hck
      have hsub1 := opStamp_none_ids hst s
      obtain ⟨p1, p2, p3, p5⟩ := ih b (applyOp s op) hck
        (fun id hid => hgood id (hsub1.subset hid)) (hnd.sublist hsub1)
      rw [opStamp_none_newIds hst s]
      refine ⟨by simpa using p1, ?_, ?_, p5⟩
      · intro id hid
        simp only [List.nil_append] at hid
        simpa only [finalClock, hst] using p2 id hid
      · simp only [List.nil_append]
        exact p3.trans ((hsub1.append_right _))
    | some t =>
      cases op with
      | runExtraction res err now =>
        simp only [opStamp, Option.some.injEq] at hst
        subst hst
        simp only [ClockOk, opStamp, Bool.and_eq_true, decide_eq_true_eq] at hck
        obtain ⟨hbt, hck'⟩ := hck
        simp only [finalClock, opStamp]
        have hfin : now + 1 ≤ finalClock (now + 1) rest := finalClock_ge rest (now + 1) hck'
        by_cases hg : jsTrim s.prescription = ""
        · have hs1 : applyOp s (.runExtraction res err now) = s := by
            simp [applyOp, handlePrescriptionNext, hg]
          have hids : opNewIds s (.runExtraction res err now) = [] := by
            simp [opNewIds, hg]
          rw [hs1, hids]
          obtain ⟨p1, p2, p3, p5⟩ := ih (now + 1) s hck'
            (fun id hid => stampIn_mono (le_refl 0) (by omega) (hgood id hid)) hnd
          refine ⟨by simpa using p1, ?_, by simpa using p3, p5⟩
          intro id hid
          simp only [List.nil_append] at hid
          exact stampIn_mono (by omega) (le_refl _) (p2 id hid)
        · cases res with
          | error =>
            have hs1 : itemIds (applyOp s (.runExtraction (.error) err now)) = itemIds s := by
              simp [applyOp, handlePrescriptionNext, hg, itemIds]
            have hids : opNewIds s (.runExtraction (.error) err now) = [] := by
              simp [opNewIds, hg]
            rw [hids]
            obtain ⟨p1, p2, p3, p5⟩ := ih (now + 1) (applyOp s (.runExtraction (.error) err now)) hck'
              (by rw [hs1]; exact fun id hid =>
                stampIn_mono (le_refl 0) (by omega) (hgood id hid))
              (by rw [hs1]; exact hnd)
            refine ⟨by simpa using p1, ?_, ?_, p5⟩
            · intro id hid
              simp only [List.nil_append] at hid
              exact stampIn_mono (by omega) (le_refl _) (p2 id hid)
            · simp only [List.nil_append]
              exact p3.trans (by rw [hs1])
          | ok r =>
            have hs1 : itemIds (applyOp s (.runExtraction (.ok r) err now)) = seedIds r.items now := by
              simp [applyOp, handlePrescriptionNext, hg, itemIds, seedIds, seedItems]
            have hids : opNewIds s (.runExtraction (.ok r) err now) = seedIds r.items now := by
              simp [opNewIds, hg]
            rw [hids]
            obtain ⟨p1, p2, p3, p5⟩ := ih (now + 1) (applyOp s (.runExtraction (.ok r) err now)) hck'
              (by rw [hs1]; exact fun id hid =>
                stampIn_mono (by omega) (le_refl _) (seedIds_stamp hid))
              (by rw [hs1]; exact seedIds_nodup r.items now)
            refine ⟨?_, ?_, ?_, p5⟩
            · refine (seedIds_nodup r.items now).append p1 ?_
              intro id hid1 hid2
              exact stampIn_disjoint (le_refl (now + 1)) (seedIds_stamp hid1) (p2 id hid2)
            · intro id hid
              rcases List.mem_append.mp hid with hid | hid
              · exact stampIn_mono hbt hfin (seedIds_stamp hid)
              · exact stampIn_mono (by omega) (le_refl _) (p2 id hid)
            · refine (p3.trans ?_).trans (List.sublist_append_right (itemIds s) _)
              rw [hs1]
      | addNew now =>
        simp only [opStamp, Option.some.injEq] at hst
        subst hst
        simp only [ClockOk, opStamp, Bool.and_eq_true, decide_eq_true_eq] at hck
        obtain ⟨hbt, hck'⟩ := hck
        simp only [finalClock, opStamp]
        have hfin : now + 1 ≤ finalClock (now + 1) rest := finalClock_ge rest (now + 1) hck'
        by_cases hg : jsTrim s.newItemForm.item_name_complete = ""
        · have hs1 : applyOp s (.addNew now) = s := by
            simp [applyOp, addItem, hg]
          have hids : opNewIds s (.addNew now) = [] := by
            simp [opNewIds, hg]
          rw [hs1, hids]
          obtain ⟨p1, p2, p3, p5⟩ := ih (now + 1) s hck'
            (fun id hid => stampIn_mono (le_refl 0) (by omega) (hgood id hid)) hnd
          refine ⟨by simpa using p1, ?_, by simpa using p3, p5⟩
          intro id hid
          simp only [List.nil_append] at hid
          exact stampIn_mono (by omega) (le_refl _) (p2 id hid)
        · have hstamp : StampIn now (now + 1) (mkManualId now) :=
            Or.inr ⟨now, le_refl now, Nat.lt_succ_self now, rfl⟩
          have hs1 : itemIds (applyOp s (.addNew now)) = itemIds s ++ [mkManualId now] := by
            simp [applyOp, addItem, hg, itemIds, manualItemOf]
          have hids : opNewIds s (.addNew now) = [mkManualId now] := by
            simp [opNewIds, hg]
          have hfresh : mkManualId now ∉ itemIds s := by
            intro hmem
            exact stampIn_disjoint hbt (hgood _ hmem) hstamp
          have hnd1 : (itemIds (applyOp s (.addNew now))).Nodup := by
            rw [hs1]
            refine hnd.append (List.nodup_singleton _) ?_
            intro id hid1 hid2
            simp only [List.mem_singleton] at hid2
            subst hid2
            exact hfresh hid1
          obtain ⟨p1, p2, p3, p5⟩ := ih (now + 1) (applyOp s (.addNew now)) hck'
            (by
              rw [hs1]
              intro id hid
              rcases List.mem_append.mp hid with hid | hid
              · exact stampIn_mono (le_refl 0) (by omega) (hgood id hid)
              · simp only [List.mem_singleton] at hid
                subst hid
                exact stampIn_mono (by omega) (le_refl _) hstamp)
            hnd1
          rw [hids]
          refine ⟨?_, ?_, ?_, p5⟩
          · refine (List.nodup_singleton _).append p1 ?_
            intro id hid1 hid2
            simp only [List.mem_singleton] at hid1
            subst hid1
            exact stampIn_disjoint (le_refl (now + 1)) hstamp (p2 _ hid2)
          · intro id hid
            rcases List.mem_append.mp hid with hid | hid
            · simp only [List.mem_singleton] at hid
              subst hid
              exact stampIn_mono hbt hfin hstamp
            · exact stampIn_mono (by omega) (le_refl _) (p2 id hid)
          · refine p3.trans ?_
            rw [hs1, List.append_assoc]
      | _ => exact absurd hst (by simp [opStamp])

theorem toggleItem_absent (items : List ValidatedItem) (id : String)
    (h : id ∉ items.map (·.id)) : toggleItem items id = items := by
  have : ∀ it ∈ items, (if it.id = id then { it with validated := !it.validated } else it) = it := by
    intro it hit
    rw [if_neg]
    intro he
    exact h (he ▸ List.mem_map_of_mem (·.id) hit)
  simpa [toggleItem] using (List.map_congr_left this).trans (List.map_id items)

theorem updateItemField_absent (items : List ValidatedItem) (id : String)
    (f : FieldK) (v : JSVal) (h : id ∉ items.map (·.id)) :
    updateItemField items id f v = items := by
  have : ∀ it ∈ items, (if it.id ≠ id then it else setField it f v) = it := by
    intro it hit
    rw [if_pos]
    intro he
    exact h (he ▸ List.mem_map_of_mem (·.id) hit)
  simpa [updateItemField] using (List.map_congr_left this).trans (List.map_id items)

theorem removeItem_absent (items : List ValidatedItem) (id : String)
    (h : id ∉ items.map (·.id)) : removeItem items id = items := by
  refine List.filter_eq_self.mpr ?_
  intro it hit
  simp only [bne_iff_ne, ne_eq]
  intro he
  exact h (he ▸ List.mem_map_of_mem (·.id) hit)

theorem getNum_setField_numeric (item : ValidatedItem) (f : FieldK) (v : JSVal)
    (hf : f.isNumeric = true) : getNum (setField item f v) f = numStore v := by
  cases f <;> simp_all [FieldK.isNumeric, setField, getNum]

/-- C1: for non-empty (after trimming) prescription text, a successful
extraction call returning N candidate items moves the wizard to the
`validate` step holding exactly N Wizard Items, one per returned candidate
in response order (stripping `id`/`validated` recovers the response), each
with `validated = false`, and with pairwise distinct ids in the batch. -/
theorem extraction_success_seeds_validate (s : WizardState) (r : ExtractionResponse)
    (errMsg : String) (now : Nat) (h : jsTrim s.prescription ≠ "") :
    (handlePrescriptionNext s (.ok r) errMsg now).step = .validate ∧
    (handlePrescriptionNext s (.ok r) errMsg now).items.length = r.items.length ∧
    (handlePrescriptionNext s (.ok r) errMsg now).items.map toCandidate = r.items ∧
    (∀ it ∈ (handlePrescriptionNext s (.ok r) errMsg now).items, it.validated = false) ∧
    ((handlePrescriptionNext s (.ok r) errMsg now).items.map (·.id)).Nodup := by
  simp only [handlePrescriptionNext, if_neg h]
  exact ⟨by trivial, seedItemsAux_length now 0 r.items, seedItemsAux_toCandidate now 0 r.items,
    fun it hit => seedItemsAux_validated now 0 r.items it hit,
    seedItemsAux_ids_nodup now 0 r.items⟩

/-- C1 witness: a concrete two-candidate response on concrete typed text. -/
theorem extraction_success_seeds_validate_witness :
    jsTrim sampleTypedState.prescription ≠ "" ∧
    (handlePrescriptionNext sampleTypedState
        (.ok ⟨[sampleCandidate "Omeprazol", sampleCandidate "Aspirin"]⟩) "err" 3).step = .validate ∧
    (handlePrescriptionNext sampleTypedState
        (.ok ⟨[sampleCandidate "Omeprazol", sampleCandidate "Aspirin"]⟩) "err" 3).items.length = 2 := by
  refine ⟨by decide, ?_, ?_⟩
  · exact (extraction_success_seeds_validate sampleTypedState
      ⟨[sampleCandidate "Omeprazol", sampleCandidate "Aspirin"]⟩ "err" 3 (by decide)).1
  · exact (extraction_success_seeds_validate sampleTypedState
      ⟨[sampleCandidate "Omeprazol", sampleCandidate "Aspirin"]⟩ "err" 3 (by decide)).2.1

/-- C2: while in the `validate` step, `handleValidateNext` moves to the
`phone` step exactly when the items list is non-empty and every item is
validated (the boolean gate `allValidated` that enables the next button),
and otherwise leaves the state unchanged (still in `validate`). -/
theorem validate_next_gate (s : WizardState) (h : s.step = .validate) :
    (allValidated s.items = true ↔ s.items ≠ [] ∧ ∀ it ∈ s.items, it.validated = true) ∧
    ((handleValidateNext s).step = .phone ↔
      s.items ≠ [] ∧ ∀ it ∈ s.items, it.validated = true) ∧
    (¬(s.items ≠ [] ∧ ∀ it ∈ s.items, it.validated = true) → handleValidateNext s = s) := by
  have hiff : allValidated s.items = true ↔
      s.items ≠ [] ∧ ∀ it ∈ s.items, it.validated = true := by
    simp [allValidated, List.all_eq_true, List.length_pos]
  refine ⟨hiff, ?_, ?_⟩
  · constructor
    · intro hstep
      by_contra hc
      have hfalse : allValidated s.items ≠ true := fun ht => hc (hiff.mp ht)
      simp only [handleValidateNext, if_neg hfalse, h] at hstep
      cases hstep
    · intro hc
      have := hiff.mpr hc
      simp [handleValidateNext, this]
  · intro hc
    have hfalse : allValidated s.items ≠ true := fun ht => hc (hiff.mp ht)
    simp [handleValidateNext, if_neg hfalse]

/-- C2 witness: one unvalidated item blocks the transition. -/
theorem validate_next_gate_witness :
    sampleValidateState.step = Step.validate ∧
    handleValidateNext sampleValidateState = sampleValidateState := by
  refine ⟨rfl, ?_⟩
  exact (validate_next_gate sampleValidateState rfl).2.2 (by decide)

/-- C3: when the extraction call throws, the wizard returns to the
`prescription` step with a non-null extraction error message set, and the
typed prescription text is unchanged. -/
theorem extraction_failure_preserves_text (s : WizardState) (errMsg : String)
    (now : Nat) (h : jsTrim s.prescription ≠ "") :
    (handlePrescriptionNext s .error errMsg now).step = .prescription ∧
    (handlePrescriptionNext s .error errMsg now).extractionError = some errMsg ∧
    (handlePrescriptionNext s .error errMsg now).extractionError ≠ none ∧
    (handlePrescriptionNext s .error errMsg now).prescription = s.prescription := by
  simp [handlePrescriptionNext, if_neg h]

/-- C3 witness: a concrete failing extraction on concrete typed text. -/
theorem extraction_failure_preserves_text_witness :
    jsTrim sampleTypedState.prescription ≠ "" ∧
    (handlePrescriptionNext sampleTypedState .error "err" 3).step = .prescription ∧
    (handlePrescriptionNext sampleTypedState .error "err" 3).prescription =
      sampleTypedState.prescription := by
  refine ⟨by decide, ?_, ?_⟩
  · exact (extraction_failure_preserves_text sampleTypedState "err" 3 (by decide)).1
  · exact (extraction_failure_preserves_text sampleTypedState "err" 3 (by decide)).2.2.2

/-- C4 counterexample: an item whose `item_name_complete` and
`raw_prescription_text` are both empty (the service controls `rawText`,
and the user can clear the description) is submitted with empty `text`,
contradicting "the submitted text is never the empty string". -/
theorem submitted_text_empty_cex :
    (buildPayloadItems [sampleItem "item-0-1" "" "" true]).map (·.text) = [""] := by
  decide

/-- C4 amended: each Wizard Item maps to one payload entry carrying its
current structured dosing fields, whose `text` is the item's
`item_name_complete` with fallback to `raw_prescription_text` exactly when
the former is empty; provided every item's `raw_prescription_text` is
non-empty, no item is submitted with empty `text`. -/
theorem payload_text_spec (items : List ValidatedItem)
    (h : ∀ it ∈ items, it.raw_prescription_text ≠ "") :
    (buildPayloadItems items).length = items.length ∧
    ∀ it ∈ items,
      (buildPayloadItem it).text =
        (if it.item_name_complete = "" then it.raw_prescription_text
         else it.item_name_complete) ∧
      (buildPayloadItem it).text ≠ "" ∧
      (buildPayloadItem it).item_name_complete = it.item_name_complete ∧
      (buildPayloadItem it).pills_per_dose = it.pills_per_dose ∧
      (buildPayloadItem it).doses_per_day = it.doses_per_day ∧
      (buildPayloadItem it).treatment_duration_days = it.treatment_duration_days ∧
      (buildPayloadItem it).total_pills_required = it.total_pills_required := by
  refine ⟨by simp [buildPayloadItems], ?_⟩
  intro it hit
  refine ⟨rfl, ?_, rfl, rfl, rfl, rfl, rfl⟩
  simp only [buildPayloadItem]
  by_cases hnc : it.item_name_complete = ""
  · rw [if_pos hnc]
    exact h it hit
  · rw [if_neg hnc]
    exact hnc

/-- C4 witness: a concrete edited item with non-empty raw text. -/
theorem payload_text_spec_witness :
    (sampleItem "item-0-1" "Omeprazol 20mg" "raw text" true).raw_prescription_text ≠ "" ∧
    (buildPayloadItems [sampleItem "item-0-1" "Omeprazol 20mg" "raw text" true]).length = 1 := by
  refine ⟨by decide, ?_⟩
  exact (payload_text_spec [sampleItem "item-0-1" "Omeprazol 20mg" "raw text" true]
    (by decide)).1

/-- C5 counterexample: two manual adds that observe the same `Date.now()`
millisecond mint the same id `item-7` twice, so the current items list
holds duplicate ids and an id is reused within the session. -/
theorem duplicate_ids_cex :
    itemIds (runAlloc initialWizardState collidingOps).1 = ["item-7", "item-7"] ∧
    ¬(itemIds (runAlloc initialWizardState collidingOps).1).Nodup := by
  decide

/-- C5 amended: provided every operation that observes `Date.now()`
observes a strictly larger value than any earlier operation, every id
minted during the session is distinct from every other (never reused), the
current items list is an in-order selection of the minted ids (insertion
order is display order), and its ids are pairwise distinct. -/
theorem wizard_ids_unique (ops : List WizardOp) (h : ClockOk 0 ops = true) :
    ((runAlloc initialWizardState ops).2).Nodup ∧
    List.Sublist (itemIds (runAlloc initialWizardState ops).1)
      ((runAlloc initialWizardState ops).2) ∧
    (itemIds (runAlloc initialWizardState ops).1).Nodup := by
  obtain ⟨p1, p2, p3, p5⟩ := runAlloc_spec ops 0 initialWizardState h
    (by intro id hid; cases hid) (by simp [itemIds, initialWizardState])
  refine ⟨p1, ?_, p5⟩
  simpa [itemIds, initialWizardState] using p3

/-- C5 witness: two manual adds at strictly increasing timestamps. -/
theorem wizard_ids_unique_witness :
    ClockOk 0 clockedOps = true ∧
    (((runAlloc initialWizardState clockedOps).2).Nodup ∧
      List.Sublist (itemIds (runAlloc initialWizardState clockedOps).1)
        ((runAlloc initialWizardState clockedOps).2) ∧
      (itemIds (runAlloc initialWizardState clockedOps).1).Nodup) :=
  ⟨by decide, wizard_ids_unique clockedOps (by decide)⟩

/-- C6: when the new-item form's description is non-empty after trimming,
`addItem` appends exactly one item at the end, auto-validated with high
confidence and no review flag; when it is empty, the items list is
unchanged. -/
theorem addItem_appends_autovalidated (s : WizardState) (now : Nat) :
    (jsTrim s.newItemForm.item_name_complete ≠ "" →
      (addItem s now).items = s.items ++ [manualItemOf s.newItemForm now] ∧
      (manualItemOf s.newItemForm now).validated = true ∧
      (manualItemOf s.newItemForm now).confidence_level = "high" ∧
      (manualItemOf s.newItemForm now).requires_human_review = false) ∧
    (jsTrim s.newItemForm.item_name_complete = "" → (addItem s now).items = s.items) := by
  constructor
  · intro h
    refine ⟨?_, rfl, rfl, rfl⟩
    simp [addItem, if_neg h]
  · intro h
    simp [addItem, if_pos h]

/-- C6 witness: adding a concrete manual item. -/
theorem addItem_appends_autovalidated_witness :
    jsTrim sampleFormState.newItemForm.item_name_complete ≠ "" ∧
    (addItem sampleFormState 5).items =
      sampleFormState.items ++ [manualItemOf sampleFormState.newItemForm 5] :=
  ⟨by decide, ((addItem_appends_autovalidated sampleFormState 5).1 (by decide)).1⟩

theorem removeItem_length (items : List ValidatedItem) (id : String)
    (hnd : (items.map (·.id)).Nodup) (hmem : id ∈ items.map (·.id)) :
    (removeItem items id).length + 1 = items.length := by
  induction items with
  | nil => simp at hmem
  | cons it rest ih =>
    simp only [List.map_cons, List.nodup_cons] at hnd
    by_cases hh : it.id = id
    · have hfilter : removeItem (it :: rest) id = removeItem rest id := by
        simp [removeItem, List.filter_cons, hh]
      have habs : id ∉ rest.map (·.id) := hh ▸ hnd.1
      rw [hfilter, removeItem_absent rest id habs]
      simp
    · have hfilter : removeItem (it :: rest) id = it :: removeItem rest id := by
        simp [removeItem, List.filter_cons, hh]
      have hmem' : id ∈ rest.map (·.id) := by
        rw [List.map_cons] at hmem
        rcases List.mem_cons.mp hmem with h | h
        · exact absurd h.symm hh
        · exact h
      rw [hfilter]
      simp only [List.length_cons]
      have := ih hnd.2 hmem'
      omega

/-- C7 counterexample: on a list holding two items with the same id
(reachable via the same-millisecond scenario of the duplicate-id
counterexample), `removeItem` removes both items, not exactly one. -/
theorem removeItem_duplicate_cex :
    [sampleItem "item-3" "A" "r" true, sampleItem "item-3" "B" "r" true].length = 2 ∧
    "item-3" ∈ [sampleItem "item-3" "A" "r" true,
      sampleItem "item-3" "B" "r" true].map (·.id) ∧
    (removeItem [sampleItem "item-3" "A" "r" true,
      sampleItem "item-3" "B" "r" true] "item-3").length = 0 := by
  decide

/-- C7 amended: on an items list with pairwise distinct ids, removing a
present id drops exactly one item; the remaining items are the original
non-matching items, unmodified and in their original relative order. -/
theorem removeItem_spec (items : List ValidatedItem) (id : String)
    (hnd : (items.map (·.id)).Nodup) (hmem : id ∈ items.map (·.id)) :
    (removeItem items id).length + 1 = items.length ∧
    List.Sublist (removeItem items id) items ∧
    ∀ it ∈ items, it.id ≠ id → it ∈ removeItem items id := by
  refine ⟨removeItem_length items id hnd hmem, List.filter_sublist items, ?_⟩
  intro it hit hne
  exact List.mem_filter.mpr ⟨hit, by simpa using hne⟩

/-- C7 witness: deleting one of two distinct-id items. -/
theorem removeItem_spec_witness :
    (([sampleItem "a" "A" "r" true, sampleItem "b" "B" "r" true].map (·.id)).Nodup) ∧
    "a" ∈ [sampleItem "a" "A" "r" true, sampleItem "b" "B" "r" true].map (·.id) ∧
    (removeItem [sampleItem "a" "A" "r" true, sampleItem "b" "B" "r" true] "a").length + 1 = 2 :=
  ⟨by decide, by decide,
    (removeItem_spec [sampleItem "a" "A" "r" true, sampleItem "b" "B" "r" true] "a"
      (by decide) (by decide)).1⟩

/-- C8 counterexample: on a list holding two items with the same id
(reachable via the same-millisecond scenario), `toggleItem` flips the
`validated` flag of both items, so another item's flag changes too. -/
theorem toggleItem_duplicate_cex :
    (toggleItem [sampleItem "item-3" "A" "r" false, sampleItem "item-3" "B" "r" false]
      "item-3").map (·.validated) = [true, true] := by
  decide

/-- C8 amended: on an items list with pairwise distinct ids, toggling a
present id negates exactly that item's `validated` flag and leaves every
other position (all fields) unchanged, preserving length and order. -/
theorem toggleItem_spec (items : List ValidatedItem) (id : String)
    (hnd : (items.map (·.id)).Nodup) (hmem : id ∈ items.map (·.id)) :
    (toggleItem items id).length = items.length ∧
    ∃ (j : Nat) (it0 : ValidatedItem), items[j]? = some it0 ∧ it0.id = id ∧
      (toggleItem items id)[j]? = some { it0 with validated := !it0.validated } ∧
      ∀ k, k ≠ j → (toggleItem items id)[k]? = items[k]? := by
  induction items with
  | nil => simp at hmem
  | cons it rest ih =>
    simp only [List.map_cons, List.nodup_cons] at hnd
    refine ⟨by simp [toggleItem], ?_⟩
    by_cases hh : it.id = id
    · refine ⟨0, it, by simp, hh, ?_, ?_⟩
      · simp [toggleItem, hh]
      · intro k hk
        cases k with
        | zero => exact absurd rfl hk
        | succ m =>
          have habs : id ∉ rest.map (·.id) := hh ▸ hnd.1
          have hrest : toggleItem rest id = rest := toggleItem_absent rest id habs
          show (toggleItem (it :: rest) id)[m + 1]? = (it :: rest)[m + 1]?
          simp only [toggleItem, List.map_cons, List.getElem?_cons_succ]
          rw [show rest.map (fun item => if item.id = id then
            { item with validated := !item.validated } else item) = rest from hrest]
    · have hmem' : id ∈ rest.map (·.id) := by
        rw [List.map_cons] at hmem
        rcases List.mem_cons.mp hmem with h | h
        · exact absurd h.symm hh
        · exact h
      obtain ⟨-, j, it0, h1, h2, h3, h4⟩ := ih hnd.2 hmem'
      refine ⟨j + 1, it0, ?_, h2, ?_, ?_⟩
      · rw [List.getElem?_cons_succ]
        exact h1
      · simp only [toggleItem, List.map_cons, List.getElem?_cons_succ]
        exact h3
      · intro k hk
        cases k with
        | zero => simp [toggleItem, hh]
        | succ m =>
          have hm : m ≠ j := fun he => hk (by rw [he])
          simp only [toggleItem, List.map_cons, List.getElem?_cons_succ]
          exact h4 m hm

/-- C8 witness: toggling one of two distinct-id items. -/
theorem toggleItem_spec_witness :
    (([sampleItem "a" "A" "r" false, sampleItem "b" "B" "r" false].map (·.id)).Nodup) ∧
    "a" ∈ [sampleItem "a" "A" "r" false, sampleItem "b" "B" "r" false].map (·.id) ∧
    (toggleItem [sampleItem "a" "A" "r" false, sampleItem "b" "B" "r" false] "a").length = 2 :=
  ⟨by decide, by decide,
    (toggleItem_spec [sampleItem "a" "A" "r" false, sampleItem "b" "B" "r" false] "a"
      (by decide) (by decide)).1⟩

/-- C9 counterexample: editing a numeric field with the non-empty,
non-numeric string "abc" stores `Number("abc")`, which is `NaN` — the
stored value is not never-`NaN` over all input values. -/
theorem nan_stored_cex :
    (updateItemField [sampleItem "a" "A" "r" false] "a" .pills_per_dose
      (.vstr "abc")).map (·.pills_per_dose) = [some JSNum.nan] ∧
    JSVal.vstr "abc" ≠ JSVal.vstr "" ∧ JSVal.vstr "abc" ≠ JSVal.vnull := by
  decide

/-- C9 amended: for a numeric field, an empty-string or null input is
stored as null; and whenever the input converts to an actual number
(`Number(value)` is not `NaN` — in particular for every value the numeric
form controls produce), the stored value is never `NaN`. -/
theorem updateItemField_numeric_spec (items : List ValidatedItem) (id : String)
    (f : FieldK) (v : JSVal) (hf : f.isNumeric = true) :
    ((v = .vstr "" ∨ v = .vnull) →
      ∀ it' ∈ updateItemField items id f v, it'.id = id → getNum it' f = none) ∧
    (toNumber v ≠ .nan →
      ∀ it' ∈ updateItemField items id f v, it'.id = id → getNum it' f ≠ some .nan) := by
  constructor
  · intro hv it' hit' hid'
    obtain ⟨it, hit, rfl⟩ := List.mem_map.mp hit'
    by_cases h : it.id ≠ id
    · rw [if_pos h] at hid' ⊢
      exact absurd hid' h
    · rw [if_neg h] at hid' ⊢
      rw [getNum_setField_numeric it f v hf, numStore, if_pos hv]
  · intro hv it' hit' hid'
    obtain ⟨it, hit, rfl⟩ := List.mem_map.mp hit'
    by_cases h : it.id ≠ id
    · rw [if_pos h] at hid'
      exact absurd hid' h
    · rw [if_neg h]
      rw [getNum_setField_numeric it f v hf, numStore]
      by_cases hv' : v = .vstr "" ∨ v = .vnull
      · simp [if_pos hv']
      · simp only [if_neg hv', ne_eq, Option.some.injEq]
        exact fun he => hv he

/-- C9 witness: storing the numeric string "3" never stores `NaN`. -/
theorem updateItemField_numeric_spec_witness :
    FieldK.isNumeric .pills_per_dose = true ∧
    toNumber (.vstr "3") ≠ JSNum.nan ∧
    getNum (setField (sampleItem "a" "A" "r" false) .pills_per_dose (.vstr "3"))
      .pills_per_dose ≠ some JSNum.nan := by
  refine ⟨rfl, by decide, ?_⟩
  exact (updateItemField_numeric_spec [sampleItem "a" "A" "r" false] "a"
      .pills_per_dose (.vstr "3") rfl).2 (by decide)
    (setField (sampleItem "a" "A" "r" false) .pills_per_dose (.vstr "3"))
    (by decide) (by decide)

/-- C10: an id that occurs in no item makes `toggleItem`,
`updateItemField` and `removeItem` all total no-ops: the items list is
returned exactly unchanged. -/
theorem absent_id_noop (items : List ValidatedItem) (id : String)
    (h : id ∉ items.map (·.id)) (f : FieldK) (v : JSVal) :
    toggleItem items id = items ∧ updateItemField items id f v = items ∧
      removeItem items id = items :=
  ⟨toggleItem_absent items id h, updateItemField_absent items id f v h,
    removeItem_absent items id h⟩

/-- C10 witness: an absent id on a concrete one-item list. -/
theorem absent_id_noop_witness :
    "zzz" ∉ [sampleItem "a" "A" "r" false].map (·.id) ∧
    toggleItem [sampleItem "a" "A" "r" false] "zzz" = [sampleItem "a" "A" "r" false] ∧
    updateItemField [sampleItem "a" "A" "r" false] "zzz" .item_name_complete
      (.vstr "Q") = [sampleItem "a" "A" "r" false] ∧
    removeItem [sampleItem "a" "A" "r" false] "zzz" = [sampleItem "a" "A" "r" false] := by
  refine ⟨by decide, ?_⟩
  exact absent_id_noop [sampleItem "a" "A" "r" false] "zzz" (by decide)
    .item_name_complete (.vstr "Q")

end Wizard
